import Mathlib

/-!
Shallow embedding of the dynetx temporal-graph core
(`src/dynetx/classes/dyngraph.py` and `src/dynetx/classes/function.py`).

Python dictionaries are modelled as association lists (one entry per key,
insertion order preserved, overwrite in place).  Nodes are arbitrary hashable
Python objects; the repository's examples and the claims use integers, and the
`density` code path compares snapshot ids against node keys, so both nodes and
snapshot ids are modelled as `Int`.

The two adjacency slots `adj[u][v]` and `adj[v][u]` of an edge share one
mutable record in Python.  Here the record's `'t'` field (the timestamp list)
is stored under both directed keys and every in-place mutation of the record
updates both copies; a `del` of one slot removes only that directed key, as in
the source.

Fallible operations return `Except PyErr`; `PyErr` enumerates the exceptions
the modelled code can raise.
-/

abbrev Node := Int

/-- Exceptions raised (or surfaced) by the modelled Python code. -/
inductive PyErr where
  | networkXError   -- nx.NetworkXError
  | keyError        -- uncaught KeyError
  | valueError      -- e.g. max() of an empty sequence
  | typeError       -- e.g. None / int
  deriving DecidableEq, Repr

/-- Event-log operation: `plus` is the Python string "+", `minus` is "-". -/
inductive EOp where
  | plus
  | minus
  deriving DecidableEq, Repr

/-- Python `d[k]` lookup on a dict modelled as an association list. -/
def lookupA {α β : Type} [DecidableEq α] (k : α) : List (α × β) → Option β
  | [] => none
  | (a, b) :: m => if a = k then some b else lookupA k m

/-- Python `d[k] = v`: overwrite in place, or append a new entry. -/
def setA {α β : Type} [DecidableEq α] (k : α) (v : β) : List (α × β) → List (α × β)
  | [] => [(k, v)]
  | (a, b) :: m => if a = k then (a, v) :: m else (a, b) :: setA k v m

/-- Python `del d[k]` (the key is assumed present; callers check first). -/
def delA {α β : Type} [DecidableEq α] (k : α) : List (α × β) → List (α × β)
  | [] => []
  | (a, b) :: m => if a = k then m else (a, b) :: delA k m

/-- Python `max` of an integer list (`none` models the ValueError on `[]`). -/
def maxL : List Int → Option Int
  | [] => none
  | x :: xs => some (xs.foldl max x)

/-- Python `range(a, b)` over integers: `[a, a+1, ..., b-1]`, empty if `b ≤ a`. -/
def intRange (a b : Int) : List Int :=
  (List.range (b - a).toNat).map (fun i : Nat => a + (i : Int))

/-- Insert into a strictly ascending list, keeping it strictly ascending. -/
def insSorted (x : Int) : List Int → List Int
  | [] => [x]
  | y :: ys => if x < y then x :: y :: ys else if x = y then y :: ys else y :: insSorted x ys

/-- Python `sorted(list(set(t)))`: ascending, duplicates removed. -/
def sortDedup (l : List Int) : List Int :=
  l.foldr insSorted []

/-- State of a `DynGraph`:
`node` is the key list of `self.node`; `adj` holds the directed adjacency
entries with the shared record's timestamp list duplicated per direction;
`time_to_edge` and `snapshots` are the fields of the same name. -/
structure DynGraph where
  node : List Node
  adj : List ((Node × Node) × List Int)
  time_to_edge : List (Int × List (Node × Node × EOp))
  snapshots : List (Int × Nat)
  deriving DecidableEq, Repr

/-- `DynGraph()`: the empty graph. -/
def DynGraph.empty : DynGraph := ⟨[], [], [], []⟩

/-- `self.time_to_edge[idt] = [entry]` / `self.time_to_edge[idt].append(entry)`. -/
def logAppend (m : List (Int × List (Node × Node × EOp))) (t : Int)
    (x : Node × Node × EOp) : List (Int × List (Node × Node × EOp)) :=
  match lookupA t m with
  | none => setA t [x] m
  | some l => setA t (l ++ [x]) m

/-- `self.snapshots[idt] = 1` / `self.snapshots[idt] += 1`. -/
def snapInc (m : List (Int × Nat)) (t : Int) : List (Int × Nat) :=
  match lookupA t m with
  | none => setA t 1 m
  | some c => setA t (c + 1) m

/-- The counter stored for snapshot `t` (0 when the key is absent). -/
def getCount (m : List (Int × Nat)) (t : Int) : Nat :=
  (lookupA t m).getD 0

/-- `DynGraph.add_edge(u, v, t, e)` of dyngraph.py, lines 332-424.

`tl` is the normalized appearance list (the code wraps a scalar `t` into
`[t]`; `t=None` raises before reaching this point and is not modelled).
Steps, in source order: auto-vivify the endpoints; append one `(u,v,"+")` log
entry per appearance id and one `(u,v,"-")` entry at `e` when given; read the
record via `adj[u].get(v)`; extend the fresh id list with the record's old
timestamps (and, when `e` is given, with `range(max(new+old), e)`); when `e`
is given increment the snapshot counters over `span = range(max(tl), e)` and
extend with `span`, otherwise increment them over the whole extended list
(old ids included — the source re-counts them); finally store
`sorted(set(t))` under both directed adjacency keys. -/
def DynGraph.add_edge (g : DynGraph) (u v : Node) (tl : List Int) (e : Option Int) :
    Except PyErr DynGraph :=
  let nodes1 := if u ∈ g.node then g.node else g.node ++ [u]
  let nodes2 := if v ∈ nodes1 then nodes1 else nodes1 ++ [v]
  let log1 := tl.foldl (fun m idt => logAppend m idt (u, v, EOp.plus)) g.time_to_edge
  let log2 := match e with
    | none => log1
    | some ev => logAppend log1 ev (u, v, EOp.minus)
  let ext : Except PyErr (List Int) :=
    match lookupA (u, v) g.adj with
    | none => .ok tl
    | some prev =>
        match e with
        | none => .ok (tl ++ prev)
        | some ev =>
            match maxL (tl ++ prev) with
            | none => .error .valueError
            | some m => .ok (tl ++ prev ++ intRange m ev)
  match ext with
  | .error s => .error s
  | .ok t2 =>
      match e with
      | some ev =>
          match maxL tl with
          | none => .error .valueError
          | some m0 =>
              let span := intRange m0 ev
              let ts := sortDedup (t2 ++ span)
              .ok { node := nodes2,
                    adj := setA (v, u) ts (setA (u, v) ts g.adj),
                    time_to_edge := log2,
                    snapshots := span.foldl snapInc g.snapshots }
      | none =>
          let ts := sortDedup t2
          .ok { node := nodes2,
                adj := setA (v, u) ts (setA (u, v) ts g.adj),
                time_to_edge := log2,
                snapshots := t2.foldl snapInc g.snapshots }

/-- `if t in edge_pres: edge_pres.remove(t)` — drop the first occurrence of
`tv` when present (Python `list.remove`). -/
def eraseT (pres0 : List Int) (tv : Int) : List Int :=
  if tv ∈ pres0 then pres0.erase tv else pres0

/-- `DynGraph.remove_edge(u, v, t)` of dyngraph.py, lines 459-498.

Source order is preserved: with `t=None` the slot `adj[v][u]` is deleted
first, then `adj[u][v]['t']` is read (KeyError becomes NetworkXError);
`t in edge_pres` is `False` for `t=None`, so the surviving direction is kept.
With `t` given, the shared record's list (`eraseT`: drop the first
occurrence of `t` when present) is seen by both directions; an emptied
record deletes both slots. -/
def DynGraph.remove_edge (g : DynGraph) (u v : Node) (t : Option Int) :
    Except PyErr DynGraph :=
  match t with
  | none =>
      match lookupA (v, u) g.adj with
      | none => .error .networkXError
      | some _ =>
          match lookupA (u, v) (delA (v, u) g.adj) with
          | none => .error .networkXError
          | some pres =>
              if pres = [] then
                if u = v then .ok { g with adj := delA (u, v) (delA (v, u) g.adj) }
                else .error .networkXError
              else .ok { g with adj := setA (u, v) pres (delA (v, u) g.adj) }
  | some tv =>
      match lookupA (u, v) g.adj with
      | none => .error .networkXError
      | some pres0 =>
          if eraseT pres0 tv = [] then
            if u = v then .ok { g with adj := delA (u, v) g.adj }
            else
              match lookupA (v, u) (delA (u, v) g.adj) with
              | none => .error .networkXError
              | some _ => .ok { g with adj := delA (v, u) (delA (u, v) g.adj) }
          else
            .ok { g with adj :=
                    if (lookupA (v, u) (setA (u, v) (eraseT pres0 tv) g.adj)).isSome
                    then setA (v, u) (eraseT pres0 tv) (setA (u, v) (eraseT pres0 tv) g.adj)
                    else setA (u, v) (eraseT pres0 tv) g.adj }

/-- `DynGraph.has_edge(u, v, t)` of dyngraph.py, lines 580-614.
A KeyError (missing `adj[u]` or missing slot) is caught and yields `False`. -/
def DynGraph.has_edge (g : DynGraph) (u v : Node) (t : Option Int) : Bool :=
  match t with
  | none => (lookupA (u, v) g.adj).isSome
  | some tv =>
      match lookupA (u, v) g.adj with
      | none => false
      | some pres => decide (tv ∈ pres)

/-- Snapshot-filtered degree of `n`: dyngraph.py line 760,
`len([v for v, k in nbrs.items() if t in k['t']])`. -/
def DynGraph.degree_t (g : DynGraph) (n : Node) (tv : Int) : Nat :=
  (g.adj.filter (fun p => decide (p.1.1 = n) && decide (tv ∈ p.2))).length

/-- Flattened degree of `n`: dyngraph.py line 756,
`len(nbrs) + (n in nbrs)` — a self-loop counts twice. -/
def DynGraph.degFlat (g : DynGraph) (n : Node) : Nat :=
  (g.adj.filter (fun p => decide (p.1.1 = n))).length
    + (if (lookupA (n, n) g.adj).isSome then 1 else 0)

/-- `DynGraph.degree(n, t)` for a single node n (dyngraph.py lines 679-761). -/
def DynGraph.degree1 (g : DynGraph) (n : Node) (t : Option Int) : Nat :=
  match t with
  | none => g.degFlat n
  | some tv => g.degree_t n tv

/-- `DynGraph.size(t)`: `int(sum(self.degree(t=t).values()) / 2)`
(dyngraph.py lines 763-789). -/
def DynGraph.size (g : DynGraph) (t : Option Int) : Nat :=
  match t with
  | none => (g.node.map (fun n => g.degFlat n)).sum / 2
  | some tv => (g.node.map (fun n => g.degree_t n tv)).sum / 2

/-- `DynGraph.number_of_nodes(t)` (dyngraph.py lines 791-820). -/
def DynGraph.number_of_nodes (g : DynGraph) (t : Option Int) : Nat :=
  match t with
  | none => g.node.length
  | some tv => (g.node.filter (fun n => decide (0 < g.degree_t n tv))).length

/-- `DynGraph.number_of_edges(u, v, t)` (dyngraph.py lines 530-578).

`v in self.adj[u]` raises KeyError when `u` is not a key of `adj`
(modelled: not a node); with `v=None` it is `False`.  In the `t` branch the
source tests `t in self.adj[u][v]` — membership among the record's attribute
KEYS, whose only key is the string `'t'`: an integer snapshot id never equals
it, so the test is always false and the branch returns 0; when
`v not in self.adj[u]` the function falls through and returns Python `None`
(modelled `Except.ok none`). -/
def DynGraph.number_of_edges (g : DynGraph) (u v : Option Node) (t : Option Int) :
    Except PyErr (Option Nat) :=
  match t with
  | none =>
      match u with
      | none => .ok (some (g.size none))
      | some uv =>
          if uv ∈ g.node then
            match v with
            | none => .ok (some 0)
            | some vv => .ok (some (if (lookupA (uv, vv) g.adj).isSome then 1 else 0))
          else .error .keyError
  | some _ =>
      match u with
      | none => .ok (some (g.size t))
      | some uv =>
          if uv ∈ g.node then
            match v with
            | none => .ok none
            | some vv =>
                if (lookupA (uv, vv) g.adj).isSome then .ok (some 0) else .ok none
          else .error .keyError

/-- `function.number_of_edges(G, t)` (function.py lines 214-246): the body is
`return G.number_of_edges(t)`, which passes `t` POSITIONALLY into the `u`
(node) parameter of `DynGraph.number_of_edges`. -/
def numberOfEdgesFn (g : DynGraph) (t : Option Int) : Except PyErr (Option Nat) :=
  g.number_of_edges t none none

/-- `function.density(G, t)` (function.py lines 249-289).  `DynGraph` is
undirected, so the final `d *= 2` applies.  With `m = None` (the fall-through
of `number_of_edges`), `None == 0` is `False` in Python and a later division
would raise TypeError. -/
def density (g : DynGraph) (t : Option Int) : Except PyErr ℚ :=
  let n := g.number_of_nodes t
  match numberOfEdgesFn g t with
  | .error s => .error s
  | .ok m? =>
      match m? with
      | some m =>
          if m = 0 ∨ n ≤ 1 then .ok 0
          else .ok (((m : ℚ) / ((n : ℚ) * ((n : ℚ) - 1))) * 2)
      | none =>
          if n ≤ 1 then .ok 0
          else .error .typeError

/-- Scan of the suffix starting at the current index: number of leading
values `< b`. -/
def scanLt (b : Int) : List Int → Nat
  | [] => 0
  | y :: ys => if y < b then scanLt b ys + 1 else 0

/-- The `while e[2]['t'][ixe] < ot_to: ixe += 1` loop of `time_slice`
(dyngraph.py line 1033), started at index `i`: the least index `j ≥ i` with
`L[j] ≥ b`.  The source relies on such an index existing (it checked
`L[-1] ≥ ot_to` before); past the end we return `L.length`, a case the
modelled code never reaches. -/
def findGe (L : List Int) (b : Int) (i : Nat) : Nat :=
  i + scanLt b (L.drop i)

/-- Per-edge timestamp selection of `DynGraph.time_slice(t_from, t_to)`
(dyngraph.py lines 1001-1043) applied to one edge whose record list is `L`:
`ot_from`/`ot_to` clamp the bounds to `L[0]`/`L[-1]`; a non-overlapping edge
(`ot_from > t_to`) and a missing exact lower bound (`list.index` ValueError)
are skipped (`none`); otherwise the Python slice `L[ixs:ixe]` is returned,
where `ixe` is bumped by one when the scan did not move. -/
def timeSliceEdge : List Int → Int → Int → Option (List Int)
  | [], _, _ => none
  | x :: l, tfrom, tto =>
    let L := x :: l
    let lastv := L.getLast (List.cons_ne_nil x l)
    let otFrom := if tfrom < x then x else tfrom
    let otTo := if lastv < tto then lastv else tto
    if tto < otFrom then none
    else
      let ixs? : Option Nat :=
        if tfrom < x then some 0
        else if otFrom ∈ L then some (L.indexOf otFrom) else none
      match ixs? with
      | none => none
      | some ixs =>
          let ixe0 : Nat := if lastv < tto then L.length - 1 else findGe L otTo ixs
          let ixe : Nat := if ixs = ixe0 then ixe0 + 1 else ixe0
          some ((L.take ixe).drop ixs)

/-- Build helper for concrete example graphs: `add_edge(u, v, t=tv)`; on the
inputs used below the call never raises, and the fallback is unreachable. -/
def addEx (g : DynGraph) (u v : Node) (tv : Int) : DynGraph :=
  match g.add_edge u v [tv] none with
  | .ok g' => g'
  | .error _ => g

/-- Build helper: `remove_edge(u, v, t)`; fallback unreachable on the
concrete inputs used below. -/
def remEx (g : DynGraph) (u v : Node) (t : Option Int) : DynGraph :=
  match g.remove_edge u v t with
  | .ok g' => g'
  | .error _ => g

/-- `G.add_edge(1, 2, t=0)` on an empty graph. -/
def gE : DynGraph := addEx DynGraph.empty 1 2 0

/-- `gE` followed by `G.remove_edge(1, 2)` with the snapshot omitted. -/
def gErm : DynGraph := remEx gE 1 2 none

/-- `gE` followed by `G.remove_edge(1, 2, t=0)`. -/
def gErmT : DynGraph := remEx gE 1 2 (some 0)

/-- `G.add_edge(1, 2, t=0)` called twice on an empty graph. -/
def gEE : DynGraph := addEx gE 1 2 0

/-- `G.add_path([0, 1, 2, 3], t=0)` on an empty graph (three `add_edge` calls). -/
def gPath : DynGraph := addEx (addEx (addEx DynGraph.empty 0 1 0) 1 2 0) 2 3 0

/-- `G.add_edge(1, 1, t=0)` on an empty graph: a self-loop present at 0. -/
def gLoop : DynGraph := addEx DynGraph.empty 1 1 0

example : (addEx DynGraph.empty 1 2 0).adj = [((1, 2), [0]), ((2, 1), [0])] := by decide
example : (addEx DynGraph.empty 1 2 0).snapshots = [(0, 1)] := by decide
example : (addEx (addEx DynGraph.empty 1 2 0) 1 2 0).snapshots = [(0, 3)] := by decide
example : (addEx (addEx DynGraph.empty 1 2 0) 1 2 0).adj
    = [((1, 2), [0]), ((2, 1), [0])] := by decide
example :
    (DynGraph.empty.add_edge 1 2 [0] (some 5)).map (fun g => lookupA (1, 2) g.adj)
      = .ok (some [0, 1, 2, 3, 4]) := by rfl
example :
    (DynGraph.empty.add_edge 1 2 [0] (some 5)).map (fun g => g.snapshots)
      = .ok [(0, 1), (1, 1), (2, 1), (3, 1), (4, 1)] := by rfl
example : timeSliceEdge [0, 1] 0 1 = some [0] := by decide
example : timeSliceEdge [0, 1, 2, 3] 0 3 = some [0, 1, 2] := by decide
example : timeSliceEdge [0] 0 0 = some [0] := by decide
example : timeSliceEdge [1] 0 1 = some [1] := by decide
example : timeSliceEdge [0, 5] 2 6 = none := by decide

/-- Claim C1 (evidence of the code bug): symmetry does not survive every
mutation.  After `add_edge(1, 2, t=0)` the completed call
`remove_edge(1, 2)` (snapshot omitted) deletes only the slot `adj[2][1]`,
so `has_edge(1, 2, t)` and `has_edge(2, 1, t)` disagree, both on the
flattened graph and at snapshot 0. -/
theorem c1_symmetry_broken_by_remove :
    DynGraph.remove_edge gE 1 2 none = Except.ok gErm ∧
    gErm.has_edge 1 2 none = true ∧ gErm.has_edge 2 1 none = false ∧
    gErm.has_edge 1 2 (some 0) = true ∧ gErm.has_edge 2 1 (some 0) = false :=
  ⟨rfl, by decide, by decide, by decide, by decide⟩

/-- Claim C2 (evidence of the code bug): `remove_edge(1, 2)` with the
snapshot omitted completes successfully but removes only the adjacency
direction `(2, 1)`; the direction `(1, 2)` survives with its full timestamp
list `[0]`. -/
theorem c2_remove_without_snapshot_keeps_one_direction :
    DynGraph.remove_edge gE 1 2 none = Except.ok gErm ∧
    lookupA (1, 2) gErm.adj = some [0] ∧
    lookupA (2, 1) gErm.adj = none :=
  ⟨rfl, by decide, by decide⟩

/-- Claim C3 (evidence of the code bug): adding the same `(1, 2, 0)` twice
leaves the timestamp set `[0]` unchanged, but the snapshot counter for 0
jumps from 1 to 3 — the duplicate call re-counts the merged list
`[0, 0]`. -/
theorem c3_duplicate_add_overcounts :
    lookupA (1, 2) gE.adj = some [0] ∧ getCount gE.snapshots 0 = 1 ∧
    lookupA (1, 2) gEE.adj = some [0] ∧ getCount gEE.snapshots 0 = 3 := by
  refine ⟨by decide, by decide, by decide, by decide⟩

/-- Claim C5 (counterexample): for an edge with timestamps `[0, 1]`,
`time_slice(0, 1)` selects `[0]` — the sub-sequence is NOT inclusive of
`eff_to = min(1, 1) = 1`, contradicting the claim (which would require
`[0, 1]`). -/
theorem c5_slice_excludes_eff_to :
    timeSliceEdge [0, 1] 0 1 = some [0] ∧ timeSliceEdge [0, 1] 0 1 ≠ some [0, 1] :=
  ⟨by decide, by decide⟩

/-- Claim C6 (counterexample): the absence mutation `remove_edge(1, 2, t=0)`
completes but appends nothing to the event log — `time_to_edge` still holds
exactly the one `(1, 2, "+")` entry written by `add_edge`. -/
theorem c6_remove_edge_appends_no_log_entry :
    gE.time_to_edge = [(0, [(1, 2, EOp.plus)])] ∧
    DynGraph.remove_edge gE 1 2 (some 0) = Except.ok gErmT ∧
    gErmT.time_to_edge = gE.time_to_edge :=
  ⟨by decide, rfl, by decide⟩

/-- Claim C7 (evidence of the code bug): on the path `0-1-2-3` at `t=0`,
4 nodes and 3 edges are present at snapshot 0, so the claimed density is
`2*3/(4*3) = 1/2`; but `function.density` passes the snapshot id into the
node slot of `number_of_edges`, computes `m = 0`, and returns 0.  With a
snapshot id that is not also a node key (99) the same path raises an
uncaught KeyError instead of returning a density. -/
theorem c7_density_at_snapshot_broken :
    gPath.number_of_nodes (some 0) = 4 ∧
    gPath.size (some 0) = 3 ∧
    density gPath (some 0) = Except.ok 0 ∧
    density gPath (some 0) ≠ Except.ok (1 / 2) ∧
    density gPath (some 99) = Except.error PyErr.keyError := by
  refine ⟨by decide, by decide, rfl, ?_, rfl⟩
  intro h
  rw [show density gPath (some 0) = Except.ok 0 from rfl] at h
  have h0 : (0 : ℚ) = 1 / 2 := Except.ok.inj h
  norm_num at h0

/-- Claim C8 (evidence of the code bug): on the path `0-1-2-3` at `t=0` the
edge `(0, 1)` is present at snapshot 0 (`has_edge` agrees), yet
`number_of_edges(0, 1, t=0)` returns 0, because the source tests membership
of the snapshot id among the record's attribute keys instead of its
timestamp list.  The code's own docstring shows this call returning 1. -/
theorem c8_pair_lookup_always_zero :
    gPath.has_edge 0 1 (some 0) = true ∧
    gPath.number_of_edges (some 0) (some 1) (some 0) = Except.ok (some 0) ∧
    gPath.number_of_edges (some 0) (some 1) (some 0) ≠ Except.ok (some 1) := by
  refine ⟨by decide, rfl, ?_⟩
  intro h
  rw [show gPath.number_of_edges (some 0) (some 1) (some 0) = Except.ok (some 0) from rfl] at h
  simp at h

/-- Claim C9 (counterexample): a self-loop on node 1 present at snapshot 0
contributes only 1 to `degree(1, t=0)` (the claim requires 2), although it
does contribute 2 to the unfiltered `degree(1)`. -/
theorem c9_selfloop_counts_once_when_filtered :
    gLoop.has_edge 1 1 (some 0) = true ∧
    gLoop.degree1 1 (some 0) = 1 ∧
    gLoop.degree1 1 none = 2 :=
  ⟨by decide, by decide, by decide⟩

theorem lookupA_setA_self {α β : Type} [DecidableEq α] (k : α) (v : β) :
    ∀ m : List (α × β), lookupA k (setA k v m) = some v
  | [] => by simp [setA, lookupA]
  | (a, b) :: m => by
      by_cases h : a = k
      · simp [setA, lookupA, h]
      · simp [setA, lookupA, h, lookupA_setA_self k v m]

theorem lookupA_setA_ne {α β : Type} [DecidableEq α] {k k' : α} (h : k' ≠ k) (v : β) :
    ∀ m : List (α × β), lookupA k (setA k' v m) = lookupA k m
  | [] => by simp [setA, lookupA, h]
  | (a, b) :: m => by
      by_cases ha : a = k'
      · subst ha
        simp [setA, lookupA, h]
      · simp only [setA, if_neg ha, lookupA]
        by_cases hk : a = k
        · simp [hk]
        · simp [hk, lookupA_setA_ne h v m]

theorem lookupA_mem {α β : Type} [DecidableEq α] {k : α} {v : β} :
    ∀ {m : List (α × β)}, lookupA k m = some v → (k, v) ∈ m
  | [], h => by simp [lookupA] at h
  | (a, b) :: m, h => by
      by_cases ha : a = k
      · subst ha
        rw [lookupA, if_pos rfl] at h
        obtain rfl := Option.some.inj h
        exact List.mem_cons_self _ _
      · rw [lookupA, if_neg ha] at h
        exact List.mem_cons_of_mem _ (lookupA_mem h)

/-- Well-formedness of the adjacency keys: every directed entry's source is a
node key (Python guarantees this because `adj[u]` exists exactly for nodes). -/
def nodesOk (g : DynGraph) : Bool :=
  g.adj.all (fun p => decide (p.1.1 ∈ g.node))

/-- Claim C10: `has_edge(u, v, at?)` is total — the embedding is a total
function into `Bool` because the source catches every KeyError — and it
returns `false` (never an error) when `u` is not a node of a well-formed
graph, when no record exists between `u` and `v`, and when the requested
snapshot is absent from the edge's timestamp list. -/
theorem c10_has_edge_total (g : DynGraph) (u v : Node) (t : Option Int)
    (hwf : nodesOk g = true) :
    (u ∉ g.node → g.has_edge u v t = false) ∧
    (lookupA (u, v) g.adj = none → g.has_edge u v t = false) ∧
    (∀ tv pres, t = some tv → lookupA (u, v) g.adj = some pres → tv ∉ pres →
      g.has_edge u v t = false) := by
  have hnone : ∀ h : lookupA (u, v) g.adj = none, g.has_edge u v t = false := by
    intro h
    cases t <;> simp [DynGraph.has_edge, h]
  refine ⟨?_, hnone, ?_⟩
  · intro hu
    cases hl : lookupA (u, v) g.adj with
    | none => exact hnone hl
    | some pres =>
        exfalso
        have hm : ((u, v), pres) ∈ g.adj := lookupA_mem hl
        have := (List.all_eq_true.mp hwf) _ hm
        exact hu (by simpa using this)
  · intro tv pres ht hl htv
    subst ht
    simp [DynGraph.has_edge, hl, htv]

/-- Claim C10 witness: concrete instances of all three `false` cases on the
one-edge graph `gE`. -/
theorem c10_has_edge_total_w :
    nodesOk gE = true ∧
    gE.has_edge 3 4 none = false ∧
    gE.has_edge 1 3 none = false ∧
    gE.has_edge 1 2 (some 5) = false :=
  ⟨by decide,
   (c10_has_edge_total gE 3 4 none (by decide)).1 (by decide),
   (c10_has_edge_total gE 1 3 none (by decide)).2.1 (by decide),
   (c10_has_edge_total gE 1 2 (some 5) (by decide)).2.2 5 [0] rfl (by decide) (by decide)⟩

theorem getCount_snapInc (m : List (Int × Nat)) (x t : Int) :
    getCount (snapInc m x) t = getCount m t + (if x = t then 1 else 0) := by
  unfold snapInc
  by_cases hxt : x = t
  · subst hxt
    cases hm : lookupA x m with
    | none => simp [getCount, hm, lookupA_setA_self]
    | some c => simp [getCount, hm, lookupA_setA_self]
  · cases hm : lookupA x m with
    | none => simp [getCount, hm, lookupA_setA_ne hxt, if_neg hxt]
    | some c => simp [getCount, hm, lookupA_setA_ne hxt, if_neg hxt]

theorem getCount_foldl_snapInc (l : List Int) (m : List (Int × Nat)) (t : Int) :
    getCount (l.foldl snapInc m) t = getCount m t + l.count t := by
  induction l generalizing m with
  | nil => simp
  | cons x l ih =>
      rw [List.foldl_cons, ih, getCount_snapInc, List.count_cons]
      by_cases hxt : x = t
      · simp [hxt]
        omega
      · simp [hxt]

theorem mem_intRange {a b x : Int} : x ∈ intRange a b ↔ a ≤ x ∧ x < b := by
  simp only [intRange, List.mem_map, List.mem_range]
  constructor
  · rintro ⟨i, hi, rfl⟩
    omega
  · rintro ⟨h1, h2⟩
    exact ⟨(x - a).toNat, by omega, by omega⟩

theorem intRange_sorted (a b : Int) : (intRange a b).Sorted (· < ·) := by
  unfold intRange
  rw [List.Sorted, List.pairwise_map]
  exact (List.pairwise_lt_range _).imp (by omega)

theorem intRange_nodup (a b : Int) : (intRange a b).Nodup :=
  (intRange_sorted a b).imp (fun h => ne_of_lt h)

theorem intRange_cons {a b : Int} (h : a < b) : intRange a b = a :: intRange (a + 1) b := by
  unfold intRange
  have hn : (b - a).toNat = (b - (a + 1)).toNat + 1 := by omega
  rw [hn, List.range_succ_eq_map, List.map_cons, List.map_map]
  refine congrArg₂ _ (by simp) ?_
  refine List.map_congr_left (fun i _ => ?_)
  simp only [Function.comp_apply]
  omega

theorem sortDedup_cons (x : Int) (l : List Int) :
    sortDedup (x :: l) = insSorted x (sortDedup l) := rfl

theorem sortDedup_eq_self : ∀ {l : List Int}, l.Sorted (· < ·) → sortDedup l = l
  | [], _ => rfl
  | x :: l, h => by
      obtain ⟨hall, hl⟩ := List.sorted_cons.mp h
      rw [sortDedup_cons, sortDedup_eq_self hl]
      cases l with
      | nil => rfl
      | cons y ys =>
          rw [insSorted, if_pos (hall y (List.mem_cons_self y ys))]

/-- Claim C4: `add_edge(u, v, t=a, e=b)` with `a < b` on a pair with no prior
record succeeds, sets the edge's timestamp list to exactly the integers of
`[a, b)`, and increments the snapshot counter of every id in that span by
exactly one, leaving every other counter unchanged. -/
theorem c4_interval_fill (g : DynGraph) (u v : Node) (a b : Int)
    (hab : a < b) (hnew : lookupA (u, v) g.adj = none) :
    (g.add_edge u v [a] (some b)).map (fun g' => lookupA (u, v) g'.adj)
        = Except.ok (some (intRange a b)) ∧
    ∀ id : Int, (g.add_edge u v [a] (some b)).map (fun g' => getCount g'.snapshots id)
        = Except.ok (getCount g.snapshots id + (if a ≤ id ∧ id < b then 1 else 0)) := by
  have hmax : maxL [a] = some a := rfl
  have hts : sortDedup ([a] ++ intRange a b) = intRange a b := by
    rw [List.singleton_append, sortDedup_cons, sortDedup_eq_self (intRange_sorted a b),
        intRange_cons hab, insSorted, if_neg (lt_irrefl a), if_pos rfl]
  have hlook : ∀ X : List ((Node × Node) × List Int), ∀ ts : List Int,
      lookupA (u, v) (setA (v, u) ts (setA (u, v) ts X)) = some ts := by
    intro X ts
    by_cases huv : (v, u) = (u, v)
    · rw [huv, lookupA_setA_self]
    · rw [lookupA_setA_ne huv, lookupA_setA_self]
  constructor
  · simp only [DynGraph.add_edge, hnew, hmax]
    simp only [Except.map, hlook, hts]
  · intro id
    simp only [DynGraph.add_edge, hnew, hmax]
    simp only [Except.map, getCount_foldl_snapInc]
    congr 1
    by_cases hid : a ≤ id ∧ id < b
    · rw [if_pos hid, List.count_eq_one_of_mem (intRange_nodup a b) (mem_intRange.mpr hid)]
    · rw [if_neg hid, List.count_eq_zero.mpr (fun hc => hid (mem_intRange.mp hc))]

/-- Claim C4 witness: `add_edge(1, 2, t=0, e=5)` on the empty graph yields
timestamps `[0, 1, 2, 3, 4]` and counters 1 at snapshot 3 and 0 at 7. -/
theorem c4_interval_fill_w :
    (0 : Int) < 5 ∧ lookupA ((1 : Node), (2 : Node)) DynGraph.empty.adj = none ∧
    (DynGraph.empty.add_edge 1 2 [0] (some 5)).map (fun g' => lookupA (1, 2) g'.adj)
        = Except.ok (some (intRange 0 5)) ∧
    (DynGraph.empty.add_edge 1 2 [0] (some 5)).map (fun g' => getCount g'.snapshots 3)
        = Except.ok (getCount DynGraph.empty.snapshots 3 + 1) :=
  ⟨by decide, by decide,
   (c4_interval_fill DynGraph.empty 1 2 0 5 (by decide) (by decide)).1,
   by
     have h := (c4_interval_fill DynGraph.empty 1 2 0 5 (by decide) (by decide)).2 3
     simpa using h⟩

/-- Claim C6 (amended): only `add_edge` writes the event log.  A successful
`remove_edge` — either variant — leaves `time_to_edge` untouched, while a
successful `add_edge` appends one `(u, v, "+")` entry per appearance id, in
call order, plus one `(u, v, "-")` entry at the vanish id when given. -/
theorem c6_log_written_only_by_add (g : DynGraph) (u v : Node) (t : Option Int)
    (tl : List Int) (e : Option Int) :
    (∀ g', g.remove_edge u v t = Except.ok g' → g'.time_to_edge = g.time_to_edge) ∧
    (∀ g', g.add_edge u v tl e = Except.ok g' →
        g'.time_to_edge =
          match e with
          | none => tl.foldl (fun m idt => logAppend m idt (u, v, EOp.plus)) g.time_to_edge
          | some ev =>
              logAppend (tl.foldl (fun m idt => logAppend m idt (u, v, EOp.plus)) g.time_to_edge)
                ev (u, v, EOp.minus)) := by
  constructor
  · intro g' h
    unfold DynGraph.remove_edge at h
    repeat' split at h
    all_goals
      first
        | exact Except.noConfusion h
        | (obtain rfl := Except.ok.inj h; rfl)
  · intro g' h
    unfold DynGraph.add_edge at h
    cases e with
    | none =>
        repeat' split at h
        all_goals
          first
            | exact Except.noConfusion h
            | (obtain rfl := Except.ok.inj h; rfl)
    | some ev =>
        repeat' split at h
        all_goals
          first
            | exact Except.noConfusion h
            | (obtain rfl := Except.ok.inj h; rfl)

/-- Claim C6 (amended) witness: on the concrete one-edge graph, removing at
snapshot 0 keeps the log unchanged, and the log written by the original
`add_edge(1, 2, t=0)` is exactly the single appended "+" entry. -/
theorem c6_log_written_only_by_add_w :
    DynGraph.remove_edge gE 1 2 (some 0) = Except.ok gErmT ∧
    gErmT.time_to_edge = gE.time_to_edge ∧
    DynGraph.empty.add_edge 1 2 [0] none = Except.ok gE ∧
    gE.time_to_edge
      = [0].foldl (fun m idt => logAppend m idt (1, 2, EOp.plus)) DynGraph.empty.time_to_edge :=
  ⟨rfl,
   (c6_log_written_only_by_add gE 1 2 (some 0) [0] none).1 gErmT rfl,
   rfl,
   (c6_log_written_only_by_add DynGraph.empty 1 2 none [0] none).2 gE rfl⟩

theorem filter_loop_split (n : Node) (q : (Node × Node) × List Int → Bool) (ts : List Int)
    (hq : q ((n, n), ts) = true) :
    ∀ l : List ((Node × Node) × List Int), (l.map Prod.fst).Nodup → ((n, n), ts) ∈ l →
      (l.filter (fun p => decide (p.1.1 = n) && q p)).length
        = (l.filter (fun p => decide (p.1.1 = n) && decide (p.1.2 ≠ n) && q p)).length + 1
  | [], _, hmem => absurd hmem (List.not_mem_nil _)
  | hd :: tl, hnd, hmem => by
      have hhd : hd.1 ∉ tl.map Prod.fst := (List.nodup_cons.mp (by simpa using hnd)).1
      have hnd' : (tl.map Prod.fst).Nodup := (List.nodup_cons.mp (by simpa using hnd)).2
      have hagree : ∀ p : (Node × Node) × List Int, p.1 ≠ (n, n) →
          (decide (p.1.1 = n) && q p) = (decide (p.1.1 = n) && decide (p.1.2 ≠ n) && q p) := by
        rintro ⟨⟨pa, pb⟩, pw⟩ hne
        by_cases h1 : pa = n
        · have h2 : pb ≠ n := fun h2 => hne (by simp [h1, h2])
          simp [h1, h2]
        · simp [h1]
      rcases List.mem_cons.mp hmem with heq | hmem'
      · obtain rfl := heq.symm
        have htl : List.filter (fun p => decide (p.1.1 = n) && q p) tl
            = List.filter (fun p => decide (p.1.1 = n) && decide (p.1.2 ≠ n) && q p) tl := by
          refine List.filter_congr (fun p hp => ?_)
          refine hagree p (fun hp1 => hhd ?_)
          exact List.mem_map.mpr ⟨p, hp, hp1⟩
        rw [List.filter_cons, List.filter_cons]
        simp only []
        rw [if_pos (by simp [hq]), if_neg (by simp), htl, List.length_cons]
      · have hne : hd.1 ≠ (n, n) := fun hh =>
          hhd (List.mem_map.mpr ⟨((n, n), ts), hmem', hh.symm⟩)
        have ih := filter_loop_split n q ts hq tl hnd' hmem'
        rw [List.filter_cons, List.filter_cons]
        cases hp : (decide (hd.1.1 = n) && q hd) with
        | true =>
            rw [← hagree hd hne, hp]
            simp [ih]
        | false =>
            rw [← hagree hd hne, hp]
            simp [ih]

/-- Claim C9 (amended): in a graph with duplicate-free adjacency keys, a
self-loop on `n` whose timestamp list contains `tv` contributes exactly 1 to
the snapshot-filtered degree `degree(n, tv)` (one qualifying neighbor), and
exactly 2 to the unfiltered degree `degree(n)`, on top of the non-loop
entries. -/
theorem c9_selfloop_degree_contribution (g : DynGraph) (n : Node) (tv : Int) (ts : List Int)
    (hnd : (g.adj.map Prod.fst).Nodup)
    (hloop : lookupA (n, n) g.adj = some ts) (htv : tv ∈ ts) :
    g.degree_t n tv
      = (g.adj.filter (fun p => decide (p.1.1 = n) && decide (p.1.2 ≠ n)
            && decide (tv ∈ p.2))).length + 1 ∧
    g.degFlat n
      = (g.adj.filter (fun p => decide (p.1.1 = n) && decide (p.1.2 ≠ n))).length + 2 := by
  have hmem : ((n, n), ts) ∈ g.adj := lookupA_mem hloop
  constructor
  · exact filter_loop_split n (fun p => decide (tv ∈ p.2)) ts (by simpa using htv) g.adj hnd hmem
  · have h := filter_loop_split n (fun _ => true) ts rfl g.adj hnd hmem
    have e1 : (fun p : (Node × Node) × List Int => decide (p.1.1 = n) && (fun _ => true) p)
        = (fun p : (Node × Node) × List Int => decide (p.1.1 = n)) := by
      funext p; simp
    have e2 : (fun p : (Node × Node) × List Int =>
          decide (p.1.1 = n) && decide (p.1.2 ≠ n) && (fun _ => true) p)
        = (fun p : (Node × Node) × List Int => decide (p.1.1 = n) && decide (p.1.2 ≠ n)) := by
      funext p; simp
    rw [e1, e2] at h
    unfold DynGraph.degFlat
    rw [hloop, h]
    simp

/-- Claim C9 (amended) witness: on the self-loop graph `gLoop`, the filtered
degree at snapshot 0 is the 0 non-loop entries plus 1, and the flattened
degree is 0 plus 2. -/
theorem c9_selfloop_degree_contribution_w :
    (gLoop.adj.map Prod.fst).Nodup ∧
    lookupA (1, 1) gLoop.adj = some [0] ∧
    gLoop.degree_t 1 0
      = (gLoop.adj.filter (fun p => decide (p.1.1 = 1) && decide (p.1.2 ≠ 1)
            && decide ((0 : Int) ∈ p.2))).length + 1 ∧
    gLoop.degFlat 1
      = (gLoop.adj.filter (fun p => decide (p.1.1 = 1) && decide (p.1.2 ≠ 1))).length + 2 :=
  ⟨by decide, by decide,
   (c9_selfloop_degree_contribution gLoop 1 0 [0] (by decide) (by decide) (by decide)).1,
   (c9_selfloop_degree_contribution gLoop 1 0 [0] (by decide) (by decide) (by decide)).2⟩

theorem takeWhile_lt_eq_filter {b : Int} :
    ∀ {L : List Int}, L.Sorted (· < ·) →
      L.takeWhile (fun y => decide (y < b)) = L.filter (fun y => decide (y < b))
  | [], _ => rfl
  | x :: l, h => by
      obtain ⟨hall, hl⟩ := List.sorted_cons.mp h
      rw [List.takeWhile_cons, List.filter_cons]
      by_cases hx : x < b
      · rw [if_pos (by simpa using hx), if_pos (by simpa using hx),
            takeWhile_lt_eq_filter hl]
      · rw [if_neg (by simpa using hx), if_neg (by simpa using hx)]
        symm
        rw [List.filter_eq_nil_iff]
        intro a ha
        simp only [decide_eq_true_eq]
        intro hab
        exact hx (lt_trans (hall a ha) hab)

theorem drop_indexOf_eq_filter {a : Int} :
    ∀ {L : List Int}, L.Sorted (· < ·) → a ∈ L →
      L.drop (L.indexOf a) = L.filter (fun y => decide (a ≤ y))
  | [], _, hm => absurd hm (List.not_mem_nil a)
  | x :: l, h, hm => by
      obtain ⟨hall, hl⟩ := List.sorted_cons.mp h
      by_cases hxa : x = a
      · subst hxa
        rw [List.indexOf_cons_self, List.drop_zero, List.filter_cons, if_pos (by simp)]
        congr 1
        symm
        rw [List.filter_eq_self]
        intro y hy
        simpa using le_of_lt (hall y hy)
      · have hma : a ∈ l := by
          rcases List.mem_cons.mp hm with h1 | h1
          · exact absurd h1.symm hxa
          · exact h1
        have hxa' : x < a := hall a hma
        rw [List.indexOf_cons_ne _ hxa, Nat.succ_eq_add_one, List.drop_succ_cons,
            List.filter_cons, if_neg (by simpa using not_le.mpr hxa'),
            drop_indexOf_eq_filter hl hma]

theorem scanLt_eq_length_takeWhile (b : Int) :
    ∀ L : List Int, scanLt b L = (L.takeWhile (fun y => decide (y < b))).length
  | [] => rfl
  | x :: l => by
      simp only [scanLt, List.takeWhile_cons]
      by_cases hx : x < b
      · rw [if_pos hx, if_pos (by simpa using hx), List.length_cons,
            scanLt_eq_length_takeWhile b l]
      · rw [if_neg hx, if_neg (by simpa using hx), List.length_nil]

theorem le_getLast_of_sorted {L : List Int} (hs : L.Sorted (· < ·)) (hne : L ≠ []) :
    ∀ y ∈ L, y ≤ L.getLast hne := by
  intro y hy
  have hM : L.dropLast ++ [L.getLast hne] = L := List.dropLast_append_getLast hne
  have hs' : List.Pairwise (· < ·) (L.dropLast ++ [L.getLast hne]) := by
    rw [hM]; exact hs
  have hy' : y ∈ L.dropLast ++ [L.getLast hne] := by rw [hM]; exact hy
  rcases List.mem_append.mp hy' with h1 | h1
  · exact le_of_lt ((List.pairwise_append.mp hs').2.2 y h1 _ (List.mem_singleton_self _))
  · exact le_of_eq (List.mem_singleton.mp h1)

theorem eq_cons_of_mem_of_min {S : List Int} (hs : S.Sorted (· < ·)) {f : Int}
    (hmem : f ∈ S) (hall : ∀ y ∈ S, f ≤ y) : ∃ T, S = f :: T := by
  cases S with
  | nil => exact absurd hmem (List.not_mem_nil f)
  | cons s0 rest =>
      obtain ⟨hall0, _⟩ := List.sorted_cons.mp hs
      rcases List.mem_cons.mp hmem with h1 | h1
      · exact ⟨rest, by rw [h1]⟩
      · exact absurd (hall s0 (List.mem_cons_self s0 rest)) (not_le.mpr (hall0 f h1))

theorem getLast_eq_of_mem_of_max {S : List Int} (hs : S.Sorted (· < ·)) {m : Int}
    (hmem : m ∈ S) (hall : ∀ y ∈ S, y ≤ m) (hne : S ≠ []) : S.getLast hne = m := by
  have hM : S.dropLast ++ [S.getLast hne] = S := List.dropLast_append_getLast hne
  have hs' : List.Pairwise (· < ·) (S.dropLast ++ [S.getLast hne]) := by rw [hM]; exact hs
  have hmem' : m ∈ S.dropLast ++ [S.getLast hne] := by rw [hM]; exact hmem
  rcases List.mem_append.mp hmem' with h1 | h1
  · have hlt : m < S.getLast hne :=
      (List.pairwise_append.mp hs').2.2 m h1 _ (List.mem_singleton_self _)
    exact absurd (hall _ (List.getLast_mem hne)) (not_le.mpr hlt)
  · exact (List.mem_singleton.mp h1).symm

theorem filter_lt_last_append {T : List Int} {m : Int}
    (hs : (T ++ [m]).Sorted (· < ·)) :
    (T ++ [m]).filter (fun y => decide (y < m)) = T := by
  have hlt : ∀ y ∈ T, y < m :=
    fun y hy => (List.pairwise_append.mp hs).2.2 y hy _ (List.mem_singleton_self _)
  rw [List.filter_append, List.filter_eq_self.mpr (fun a ha => by simpa using hlt a ha)]
  simp

theorem filter_ge_last_append {T : List Int} {m : Int}
    (hs : (T ++ [m]).Sorted (· < ·)) :
    (T ++ [m]).filter (fun y => decide (m ≤ y)) = [m] := by
  have hlt : ∀ y ∈ T, y < m :=
    fun y hy => (List.pairwise_append.mp hs).2.2 y hy _ (List.mem_singleton_self _)
  rw [List.filter_append,
      List.filter_eq_nil_iff.mpr (fun a ha => by simpa using not_le.mpr (hlt a ha))]
  simp

/-- Claim C5 (amended): for an edge with strictly ascending timestamps
`x :: l`, when the effective lower bound `eff_from = max(t_from, L[0])` is an
exact member of the list and does not exceed `t_to`, the per-edge selection
of `time_slice` keeps exactly the timestamps in the half-open span
`[eff_from, eff_to)` with `eff_to = min(t_to, L[-1])` — `eff_to` itself is
EXCLUDED — except that when the span is empty the single timestamp
`eff_from` is kept. -/
theorem c5_slice_spec (x : Int) (l : List Int) (tfrom tto : Int)
    (hs : (x :: l).Sorted (· < ·))
    (hmem : max tfrom x ∈ x :: l)
    (hle : max tfrom x ≤ tto) :
    timeSliceEdge (x :: l) tfrom tto =
      some (if max tfrom x < min tto ((x :: l).getLast (List.cons_ne_nil x l))
            then (x :: l).filter (fun y => decide (max tfrom x ≤ y)
                    && decide (y < min tto ((x :: l).getLast (List.cons_ne_nil x l))))
            else [max tfrom x]) := by
  have hLne : (x :: l : List Int) ≠ [] := List.cons_ne_nil x l
  simp only [timeSliceEdge]
  have hfx : (if tfrom < x then x else tfrom) = max tfrom x := by
    split <;> omega
  have hex : (if (x :: l).getLast hLne < tto then (x :: l).getLast hLne else tto)
      = min tto ((x :: l).getLast hLne) := by
    split <;> omega
  rw [hfx, if_neg (not_lt.mpr hle)]
  have hixs : (if tfrom < x then some 0
               else if max tfrom x ∈ x :: l then some ((x :: l).indexOf (max tfrom x)) else none)
      = some ((x :: l).indexOf (max tfrom x)) := by
    by_cases htx : tfrom < x
    · rw [if_pos htx]
      have hfxx : max tfrom x = x := by omega
      rw [hfxx, List.indexOf_cons_self]
    · rw [if_neg htx, if_pos hmem]
  rw [hixs]
  have hidx : (x :: l).indexOf (max tfrom x) < (x :: l).length :=
    List.indexOf_lt_length.mpr hmem
  have hdrop : (x :: l).drop ((x :: l).indexOf (max tfrom x))
      = (x :: l).filter (fun y => decide (max tfrom x ≤ y)) :=
    drop_indexOf_eq_filter hs hmem
  have hSlen : ((x :: l).drop ((x :: l).indexOf (max tfrom x))).length
      = (x :: l).length - (x :: l).indexOf (max tfrom x) := List.length_drop _ _
  have hSne : (x :: l).drop ((x :: l).indexOf (max tfrom x)) ≠ [] := by
    intro h0
    rw [h0] at hSlen
    simp only [List.length_nil] at hSlen
    omega
  have hSsorted : ((x :: l).drop ((x :: l).indexOf (max tfrom x))).Sorted (· < ·) :=
    List.Pairwise.sublist (List.drop_sublist _ _) hs
  have hfS : max tfrom x ∈ (x :: l).drop ((x :: l).indexOf (max tfrom x)) := by
    rw [hdrop]
    exact List.mem_filter.mpr ⟨hmem, by simp⟩
  have hallS : ∀ y ∈ (x :: l).drop ((x :: l).indexOf (max tfrom x)), max tfrom x ≤ y := by
    intro y hy
    rw [hdrop] at hy
    simpa using List.of_mem_filter hy
  have hflast : max tfrom x ≤ (x :: l).getLast hLne := le_getLast_of_sorted hs hLne _ hmem
  have hlS : (x :: l).getLast hLne ∈ (x :: l).drop ((x :: l).indexOf (max tfrom x)) := by
    rw [hdrop]
    exact List.mem_filter.mpr ⟨List.getLast_mem hLne, by simpa using hflast⟩
  obtain ⟨S2, hScons⟩ :=
    eq_cons_of_mem_of_min hSsorted hfS hallS
  have hlastS : ((x :: l).drop ((x :: l).indexOf (max tfrom x))).getLast hSne
      = (x :: l).getLast hLne := by
    refine getLast_eq_of_mem_of_max hSsorted hlS ?_ hSne
    intro y hy
    rw [hdrop] at hy
    exact le_getLast_of_sorted hs hLne y (List.mem_of_mem_filter hy)
  simp only []
  by_cases hB : (x :: l).getLast hLne < tto
  · have he : min tto ((x :: l).getLast hLne) = (x :: l).getLast hLne := by omega
    rw [he]
    simp only [if_pos hB]
    by_cases hfe : max tfrom x < (x :: l).getLast hLne
    · have hidxne : (x :: l).indexOf (max tfrom x) ≠ (x :: l).length - 1 := by
        intro h0
        have h1 : ((x :: l).drop ((x :: l).indexOf (max tfrom x))).length = 1 := by
          rw [hSlen, h0]
          have h2 : 0 < (x :: l).length := by simp
          omega
        obtain ⟨s, hsEq⟩ := List.length_eq_one.mp h1
        rw [hsEq, List.mem_singleton] at hfS hlS
        omega
      rw [if_neg hidxne, List.drop_take]
      have harith : (x :: l).length - 1 - (x :: l).indexOf (max tfrom x)
          = ((x :: l).drop ((x :: l).indexOf (max tfrom x))).length - 1 := by omega
      rw [harith, ← List.dropLast_eq_take, if_pos hfe]
      refine congrArg some ?_
      have hSdecomp : ((x :: l).drop ((x :: l).indexOf (max tfrom x))).dropLast
            ++ [(x :: l).getLast hLne]
          = (x :: l).drop ((x :: l).indexOf (max tfrom x)) := by
        conv_rhs => rw [← List.dropLast_append_getLast hSne]
        rw [hlastS]
      have hs2 : (((x :: l).drop ((x :: l).indexOf (max tfrom x))).dropLast
            ++ [(x :: l).getLast hLne]).Sorted (· < ·) := by
        rw [hSdecomp]
        exact hSsorted
      have hfilterS : ((x :: l).drop ((x :: l).indexOf (max tfrom x))).filter
            (fun y => decide (y < (x :: l).getLast hLne))
          = ((x :: l).drop ((x :: l).indexOf (max tfrom x))).dropLast := by
        conv_lhs => rw [← hSdecomp]
        exact filter_lt_last_append hs2
      rw [← hfilterS, hdrop, List.filter_filter]
      exact List.filter_congr (fun a _ => Bool.and_comm _ _)
    · have hfeq : max tfrom x = (x :: l).getLast hLne := by omega
      have hMdec := List.dropLast_append_getLast hLne
      have hSsing : (x :: l).drop ((x :: l).indexOf (max tfrom x))
          = [(x :: l).getLast hLne] := by
        rw [hdrop, hfeq]
        generalize hg : (x :: l).getLast hLne = lv
        rw [hg] at hMdec
        conv_lhs => rw [← hMdec]
        refine filter_ge_last_append ?_
        rw [hMdec]
        exact hs
      have hidxeq : (x :: l).indexOf (max tfrom x) = (x :: l).length - 1 := by
        have h1 : ((x :: l).drop ((x :: l).indexOf (max tfrom x))).length = 1 := by
          rw [hSsing]
          rfl
        omega
      rw [if_pos hidxeq, List.drop_take]
      have harith : (x :: l).length - 1 + 1 - (x :: l).indexOf (max tfrom x) = 1 := by
        have h2 : 0 < (x :: l).length := by simp
        omega
      rw [harith, hSsing, if_neg hfe, hfeq]
      simp
  · have he : min tto ((x :: l).getLast hLne) = tto := by omega
    rw [he]
    simp only [if_neg hB, findGe]
    by_cases hfe : max tfrom x < tto
    · have hk : 0 < scanLt tto ((x :: l).drop ((x :: l).indexOf (max tfrom x))) := by
        rw [hScons]
        simp only [scanLt]
        rw [if_pos hfe]
        omega
      rw [if_neg (by omega), List.drop_take]
      have harith : (x :: l).indexOf (max tfrom x)
            + scanLt tto ((x :: l).drop ((x :: l).indexOf (max tfrom x)))
            - (x :: l).indexOf (max tfrom x)
          = scanLt tto ((x :: l).drop ((x :: l).indexOf (max tfrom x))) := by omega
      rw [harith]
      have htw : ((x :: l).drop ((x :: l).indexOf (max tfrom x))).take
            (scanLt tto ((x :: l).drop ((x :: l).indexOf (max tfrom x))))
          = ((x :: l).drop ((x :: l).indexOf (max tfrom x))).takeWhile
            (fun y => decide (y < tto)) := by
        rw [scanLt_eq_length_takeWhile]
        exact (List.prefix_iff_eq_take.mp (List.takeWhile_prefix _)).symm
      rw [htw, takeWhile_lt_eq_filter hSsorted, hdrop, List.filter_filter, if_pos hfe]
      exact congrArg some (List.filter_congr (fun a _ => Bool.and_comm _ _))
    · have hk : scanLt tto ((x :: l).drop ((x :: l).indexOf (max tfrom x))) = 0 := by
        rw [hScons]
        simp only [scanLt]
        rw [if_neg hfe]
      rw [hk]
      rw [if_pos (by omega), List.drop_take]
      have harith : (x :: l).indexOf (max tfrom x) + 0 + 1 - (x :: l).indexOf (max tfrom x)
          = 1 := by omega
      rw [harith, hScons, if_neg hfe]
      simp

/-- Claim C5 (amended) witness: an edge present over `[0, 9]` sliced with
`time_slice(0, 9)` keeps `[0, ..., 8]` — the round trip drops the final
timestamp 9. -/
theorem c5_slice_spec_w :
    ((0 : Int) :: [1, 2, 3, 4, 5, 6, 7, 8, 9]).Sorted (· < ·) ∧
    max (0 : Int) 0 ∈ ((0 : Int) :: [1, 2, 3, 4, 5, 6, 7, 8, 9]) ∧
    timeSliceEdge [0, 1, 2, 3, 4, 5, 6, 7, 8, 9] 0 9 = some [0, 1, 2, 3, 4, 5, 6, 7, 8] := by
  refine ⟨by decide, by decide, ?_⟩
  have h := c5_slice_spec 0 [1, 2, 3, 4, 5, 6, 7, 8, 9] 0 9 (by decide) (by decide) (by decide)
  rw [h]
  decide
